import Mathlib

set_option maxRecDepth 4096

/-!
Verification development for the gal-cli agentic orchestration engine.

The definitions below are a shallow embedding of the Go sources:
  internal/provider/anthropic.go  (Protocol B stream adapter)
  internal/provider/openai.go     (Protocol A stream adapter)
  internal/engine/engine.go       (turn loop, rollback, cleaning, compression)
  internal/tool/registry.go       (read-only classification)

Strings model Go strings; SSE transport and JSON encoding and decoding are
kept abstract: a stream is a list of already-classified lines (a line either
lacks the data prefix, fails JSON parsing, or carries a decoded event), and
JSON rendering of requests and of interactive result maps is passed in as an
environment function.  Everything downstream of those boundaries follows the
Go control flow statement by statement.
-/

namespace GalCli

/-- Model of provider.ToolCall (provider.go): the nested Function struct is
flattened into the name and arguments fields. -/
structure ToolCall where
  id : String
  type : String
  name : String
  arguments : String
deriving Repr, DecidableEq

/-- Model of provider.Message (provider.go). -/
structure Message where
  role : String
  content : String
  toolCalls : List ToolCall
  toolCallId : String
deriving Repr, DecidableEq

/-- Model of provider.StreamDelta (provider.go). -/
structure StreamDelta where
  content : String := ""
  toolCalls : List ToolCall := []
  done : Bool := false
deriving Repr, DecidableEq

/-! ## Protocol B adapter (anthropic.go ChatStream, read loop) -/

/-- Decoded SSE event for the messages-style protocol: the fields the Go
struct literal in anthropic.go declares (type, delta.type, delta.text,
delta.partial_json, content_block.type, content_block.id,
content_block.name).  The partial_json field is named pjson here. -/
structure AnthEvent where
  type : String := ""
  deltaType : String := ""
  deltaText : String := ""
  pjson : String := ""
  blockType : String := ""
  blockId : String := ""
  blockName : String := ""
deriving Repr, DecidableEq

/-- One line of the Protocol B response body as the scanner classifies it:
no data prefix, a data line whose JSON fails to parse, or a decoded event. -/
inductive AnthLine where
  | noData : AnthLine
  | badJson : AnthLine
  | data : AnthEvent → AnthLine
deriving Repr, DecidableEq

/-- State of the Protocol B read loop: currentToolID, currentToolName,
currentToolArgs in anthropic.go. -/
structure AnthState where
  curId : String := ""
  curName : String := ""
  curArgs : String := ""
deriving Repr, DecidableEq

/-- Read loop of anthropic.go ChatStream.  Returns the deltas delivered to
onDelta, the final accumulator state, and whether a message_stop event was
seen (at which point the Go function returns immediately, ignoring the rest
of the input). -/
def anthRun : List AnthLine → AnthState → List StreamDelta × AnthState × Bool
  | [], st => ([], st, false)
  | .noData :: rest, st => anthRun rest st
  | .badJson :: rest, st => anthRun rest st
  | .data e :: rest, st =>
    if e.type = "content_block_start" then
      anthRun rest (if e.blockType = "tool_use"
        then { curId := e.blockId, curName := e.blockName, curArgs := "" }
        else st)
    else if e.type = "content_block_delta" then
      if e.deltaType = "text_delta" then
        let r := anthRun rest st
        ({ content := e.deltaText } :: r.1, r.2)
      else if e.deltaType = "input_json_delta" then
        anthRun rest { st with curArgs := st.curArgs ++ e.pjson }
      else
        anthRun rest st
    else if e.type = "content_block_stop" then
      if st.curId ≠ "" then
        let tc : ToolCall :=
          { id := st.curId, type := "function",
            name := st.curName, arguments := st.curArgs }
        let r := anthRun rest { st with curId := "" }
        ({ toolCalls := [tc] } :: r.1, r.2)
      else
        anthRun rest st
    else if e.type = "message_stop" then
      ([{ done := true }], st, true)
    else
      anthRun rest st

/-- Full result of anthropic.go ChatStream on a response body: the input is
the classified line list plus the scanner error observed once the lines are
exhausted.  When message_stop is reached the Go code returns nil; when the
scanner stops first the Go code returns scanner.Err(), which is none exactly
when the body ended in a clean EOF. -/
def anthChatStream (lines : List AnthLine) (scanErr : Option String) :
    List StreamDelta × Except String Unit :=
  let r := anthRun lines {}
  if r.2.2 then (r.1, .ok ())
  else
    match scanErr with
    | some e => (r.1, .error e)
    | none => (r.1, .ok ())

/-- Event helpers for concrete Protocol B scenarios. -/
def anthStartToolUse (id name : String) : AnthLine :=
  .data { type := "content_block_start", blockType := "tool_use",
          blockId := id, blockName := name }

def anthJsonDelta (p : String) : AnthLine :=
  .data { type := "content_block_delta", deltaType := "input_json_delta",
          pjson := p }

def anthTextDelta (t : String) : AnthLine :=
  .data { type := "content_block_delta", deltaType := "text_delta",
          deltaText := t }

def anthBlockStop : AnthLine := .data { type := "content_block_stop" }

def anthMessageStop : AnthLine := .data { type := "message_stop" }

end GalCli

namespace GalCli

/-! ## Engine (engine.go) -/

/-- Trailing message removed by cleanIncompleteToolCalls: a tool result, or
an assistant message that carries tool calls.  The Go loop breaks on a plain
text assistant message, on user and system messages, and on anything else
(final break), which is exactly the complement of this predicate. -/
def droppable (m : Message) : Bool :=
  m.role == "tool" || (m.role == "assistant" && !m.toolCalls.isEmpty)

/-- Removal of the maximal droppable run at the head of a list (used on the
reversed transcript). -/
def dropTrailing : List Message → List Message
  | [] => []
  | m :: rest => if droppable m then dropTrailing rest else m :: rest

/-- cleanIncompleteToolCalls (engine.go): strips trailing incomplete
tool-call sequences, walking back from the end of the transcript. -/
def cleanIncompleteToolCalls (msgs : List Message) : List Message :=
  (dropTrailing msgs.reverse).reverse

/-- Model of engine.go InteractiveInputRequest, after JSON extraction and
defaulting. -/
structure InteractiveInputRequest where
  name : String := ""
  interactiveType : String := ""
  interactiveHint : String := ""
  options : List String := []
  sensitive : Bool := false
deriving Repr, DecidableEq

/-- Engine environment, fixed during a turn.  readOnly is
Registry.IsReadOnly; hasHandler says whether an onInteractive callback was
supplied; fieldsOf models the JSON extraction of the fields array from the
argument string of an interactive tool call (none when no fields array
parses, mirroring the args parse in SendWithInteractive); renderRequest
models json.Marshal of the request payload that debugJSON dumps each round;
marshalResults models json.Marshal of the collected name to value map;
maskInteractive models the masked display copy of an interactive result. -/
structure Env where
  readOnly : String → Bool
  hasHandler : Bool
  fieldsOf : String → Option (List InteractiveInputRequest)
  renderRequest : List Message → String
  marshalResults : List (String × String) → String
  maskInteractive : String → String

/-- External events of one round of the agentic loop: ctx.Err() observed at
the top of the round, the ChatStream outcome (none is a stream or transport
error, some carries the accumulated text and tool calls), the onInteractive
outcome when the callback is invoked, the Registry.Execute outcome per call
index, and the order in which parallel executions complete. -/
structure RoundSpec where
  cancelled : Bool := false
  stream : Option (String × List ToolCall) := none
  interact : Except Unit (List (String × String)) := .ok []
  exec : Nat → Except String String := fun _ => .ok ""
  arrival : List Nat := []

/-- Debug emissions of the engine: plain debugLog lines, and debugJSON
dumps (which go through the sensitive-value mask). -/
inductive LogEntry where
  | line : String → LogEntry
  | json : String → LogEntry
deriving Repr, DecidableEq

/-- Replacement text used by the engine for masked values. -/
def maskText : String := "********"

/-- Test whether pat is an initial run of l. -/
def leadsWith : List Char → List Char → Bool
  | [], _ => true
  | _ :: _, [] => false
  | a :: as, b :: bs => a == b && leadsWith as bs

/-- strings.ReplaceAll at character level: leftmost non-overlapping
replacement of every occurrence of pat by rep.  The empty pattern is the
identity here (the engine never records an empty sensitive value, so the
divergence of Go on an empty old string is unreachable).  The fuel argument
is only a structural termination device: every step consumes at least one
input character, so any fuel at least the input length gives the fixpoint
semantics. -/
def replaceFuel (pat rep : List Char) : Nat → List Char → List Char
  | 0, l => l
  | _ + 1, [] => []
  | fuel + 1, c :: rest =>
    if pat ≠ [] ∧ leadsWith pat (c :: rest) then
      rep ++ replaceFuel pat rep fuel (List.drop pat.length (c :: rest))
    else
      c :: replaceFuel pat rep fuel rest

/-- strings.ReplaceAll on strings. -/
def replaceAll (s pat rep : String) : String :=
  ⟨replaceFuel pat.data rep.data s.data.length s.data⟩

/-- Substring occurrence test (structural). -/
def hasSubList (pat : List Char) : List Char → Bool
  | [] => leadsWith pat []
  | c :: rest => leadsWith pat (c :: rest) || hasSubList pat rest

/-- Substring occurrence test on strings. -/
def containsStr (s v : String) : Bool := hasSubList v.data s.data

/-- debugJSON masking (engine.go): strings.ReplaceAll for every recorded
sensitive value, in recording order. -/
def applyMask (sv : List String) (s : String) : String :=
  sv.foldl (fun acc v => replaceAll acc v maskText) s

/-- Mutable engine state during a turn: the transcript, the sensitive value
list, and the debug log. -/
structure EngState where
  msgs : List Message
  sv : List String
  log : List LogEntry
deriving Repr, DecidableEq

/-- Terminal failures of SendWithInteractive. -/
inductive TurnError where
  | roundCap
  | cancelled
  | streamError
  | emptyResponse
  | interactiveError
deriving Repr, DecidableEq

/-- Result of one round: continue looping, or stop with the turn result. -/
inductive StepRes where
  | next : EngState → StepRes
  | stop : EngState → Except TurnError Unit → StepRes
deriving Repr

/-- Index of the first tool call named interactive whose arguments contain a
fields array (engine.go: the loop breaks at the first such call; calls named
interactive without a parsable fields array are passed over). -/
def findInteractiveIdx (env : Env) (calls : List ToolCall) : Option Nat :=
  (List.range calls.length).find? fun i =>
    match calls[i]? with
    | some tc => tc.name == "interactive" && (env.fieldsOf tc.arguments).isSome
    | none => false

/-- Field requests parsed from the interactive call, when one was found. -/
def requestsAt (env : Env) (calls : List ToolCall) : Option Nat → List InteractiveInputRequest
  | none => []
  | some i =>
    match calls[i]? with
    | some tc => (env.fieldsOf tc.arguments).getD []
    | none => []

/-- Downgrade of a Registry.Execute outcome into result text (engine.go:
res = "error: " + err.Error() on failure). -/
def execText : Except String String → String
  | .ok r => r
  | .error e => "error: " ++ e

/-- Go map lookup with zero value: interactiveResults[req.Name]. -/
def lookupVal (vals : List (String × String)) (k : String) : String :=
  ((vals.find? (fun p => p.1 == k)).map (·.2)).getD ""

/-- Values appended to the sensitive list after interactive collection:
for each sensitive request, its collected value when nonempty. -/
def sensitiveAdds (requests : List InteractiveInputRequest)
    (vals : List (String × String)) : List String :=
  (requests.filter (·.sensitive)).filterMap fun req =>
    let v := lookupVal vals req.name
    if v = "" then none else some v

/-- Names of the sensitive requests (the sensitiveKeys map in engine.go). -/
def sensitiveKeysOf (requests : List InteractiveInputRequest) : List String :=
  (requests.filter (·.sensitive)).map (·.name)

/-- Parallel-execution decision (engine.go): allReadOnly starts as
interactiveToolIndex < 0, is cleared when any call is not read-only in the
registry, and the parallel branch additionally requires more than one
call. -/
def parallelMode (env : Env) (iIdx : Option Nat) (calls : List ToolCall) : Bool :=
  (iIdx.isNone && calls.all fun tc => env.readOnly tc.name)
    && decide (1 < calls.length)

/-- Fan-in of parallel results (engine.go: results[tr.index] = tr as the
completions arrive on the channel, in arrival order). -/
def fillResults (n : Nat) (f : Nat → String) (arrival : List Nat) : List String :=
  arrival.foldl (fun acc i => acc.set i (f i)) (List.replicate n "")

/-- Tool execution and result appending for one round with tool calls
(engine.go after the interactive-collection block).  In the serial branch
the call at the interactive index is answered with the marshalled collected
values instead of Registry.Execute; every Execute failure is downgraded to
error text.  The TOOL_CALL debug lines of the parallel branch are printed
from goroutines in nondeterministic order in Go; the model records them in
call order (no claim depends on intra-round log order).  roundResults is the list of
result texts, one per call: filled in by index in the parallel branch,
computed in order in the serial branch (with the interactive override). -/
def roundResults (env : Env) (spec : RoundSpec) (calls : List ToolCall)
    (iIdx : Option Nat) (interRes : Option (List (String × String))) :
    List String :=
  if parallelMode env iIdx calls then
    fillResults calls.length (fun i => execText (spec.exec i)) spec.arrival
  else
    (List.range calls.length).map fun i =>
      match interRes with
      | some vals =>
        if iIdx = some i then env.marshalResults vals else execText (spec.exec i)
      | none => execText (spec.exec i)

def execPhase (env : Env) (st : EngState) (spec : RoundSpec)
    (calls : List ToolCall) (iIdx : Option Nat)
    (interRes : Option (List (String × String)))
    (sensKeys : List String) : EngState :=
  let n := calls.length
  let par := parallelMode env iIdx calls
  let results : List String := roundResults env spec calls iIdx interRes
  let callLogs : List LogEntry := calls.map fun tc =>
    if par then .line ("TOOL_CALL[parallel]: " ++ tc.name ++ " args=" ++ tc.arguments)
    else .line ("TOOL_CALL: " ++ tc.name ++ " args=" ++ tc.arguments)
  let display : Nat → String := fun i =>
    if iIdx = some i ∧ sensKeys ≠ [] then env.maskInteractive (results.getD i "")
    else results.getD i ""
  let resultLogs : List LogEntry := (List.range n).map fun i =>
    .line ("TOOL_RESULT: " ++ ((calls[i]?.map (·.name)).getD "") ++ " " ++ display i)
  let toolMsgs : List Message := (calls.zip results).map fun p =>
    { role := "tool", content := p.2, toolCalls := [], toolCallId := p.1.id }
  { st with msgs := st.msgs ++ toolMsgs, log := st.log ++ callLogs ++ resultLogs }

/-- Assistant message carrying only text (zero-tool-call exit). -/
def assistantTextMsg (content : String) : Message :=
  { role := "assistant", content := content, toolCalls := [], toolCallId := "" }

/-- Assistant message recording the tool calls of a round. -/
def assistantCallsMsg (calls : List ToolCall) : Message :=
  { role := "assistant", content := "", toolCalls := calls, toolCallId := "" }

/-- User message appended at the start of a turn. -/
def userMsgOf (u : String) : Message :=
  { role := "user", content := u, toolCalls := [], toolCallId := "" }

/-- State after the debugJSON request dump of a round: the payload is passed
through the sensitive-value mask. -/
def withReqLog (env : Env) (st : EngState) : EngState :=
  { st with log := st.log ++
      [LogEntry.json (applyMask st.sv (env.renderRequest st.msgs))] }

/-- Transcript append. -/
def appendMsg (st : EngState) (m : Message) : EngState :=
  { st with msgs := st.msgs ++ [m] }

/-- Tool-call part of a round (engine.go after the assistant append):
interactive detection on the first interactive call with a fields array, the
onInteractive invocation when requests are nonempty and a handler exists (an
error there rolls back and aborts the turn; collected sensitive values are
recorded before execution), then execPhase. -/
def roundTools (env : Env) (snap : List Message) (st : EngState)
    (spec : RoundSpec) (calls : List ToolCall) : StepRes :=
  if requestsAt env calls (findInteractiveIdx env calls) ≠ [] ∧ env.hasHandler then
    match spec.interact with
    | .error _ => .stop { st with msgs := snap } (.error .interactiveError)
    | .ok vals =>
      .next (execPhase env
        { st with sv := st.sv ++
            sensitiveAdds (requestsAt env calls (findInteractiveIdx env calls)) vals }
        spec calls (findInteractiveIdx env calls) (some vals)
        (sensitiveKeysOf (requestsAt env calls (findInteractiveIdx env calls))))
  else
    .next (execPhase env st spec calls (findInteractiveIdx env calls) none [])

/-- One round of SendWithInteractive, in the order of engine.go: context
check, debugJSON request dump, ChatStream, the zero-tool-call exits (append
assistant text and succeed, or fail on empty text), the assistant tool-call
append, then roundTools.  Every error exit restores the transcript to the
snapshot. -/
def roundStep (env : Env) (snap : List Message) (st : EngState)
    (spec : RoundSpec) : StepRes :=
  if spec.cancelled then
    .stop { st with msgs := snap } (.error .cancelled)
  else
    match spec.stream with
    | none =>
      .stop { withReqLog env st with msgs := snap } (.error .streamError)
    | some (content, calls) =>
      if calls.isEmpty then
        if content = "" then
          .stop { withReqLog env st with msgs := snap } (.error .emptyResponse)
        else
          .stop (appendMsg (withReqLog env st) (assistantTextMsg content)) (.ok ())
      else
        roundTools env snap
          (appendMsg (withReqLog env st) (assistantCallsMsg calls)) spec calls

/-- Round cap of the agentic loop (engine.go maxRounds). -/
def maxRounds : Nat := 50

/-- Driver of the agentic loop: fuel counts the remaining permitted rounds;
exhausting it is the round-cap failure, which rolls back. -/
def runRounds (env : Env) (snap : List Message) (specs : Nat → RoundSpec) :
    Nat → Nat → EngState → EngState × Except TurnError Unit
  | 0, _, st => ({ st with msgs := snap }, .error .roundCap)
  | fuel + 1, r, st =>
    match roundStep env snap st (specs r) with
    | .next st2 => runRounds env snap specs fuel (r + 1) st2
    | .stop st2 res => (st2, res)

/-- SendWithInteractive (engine.go): clean incomplete tool calls, record the
rollback snapshot, append the user message, then loop.  Go records the
snapshot as a length and rolls back by truncation; since the transcript
only grows between snapshot and rollback, restoring the saved list is the
same operation. -/
def sendTurn (env : Env) (sv0 : List String) (msgs0 : List Message)
    (userMsg : String) (specs : Nat → RoundSpec) :
    EngState × Except TurnError Unit :=
  let cleaned := cleanIncompleteToolCalls msgs0
  let st0 : EngState :=
    { msgs := cleaned ++ [userMsgOf userMsg],
      sv := sv0,
      log := [LogEntry.line ("USER: " ++ userMsg)] }
  runRounds env cleaned specs maxRounds 0 st0

/-- Read-only classification of the built-in registry (registry.go and
http.go): RegisterReadOnly is called for file_read, file_list, grep and
http; every other name, the interactive tool included, is registered with
plain Register and is not read-only. -/
def builtinReadOnly (name : String) : Bool :=
  ["file_read", "file_list", "grep", "http"].contains name

end GalCli

namespace GalCli

/-- Claim C5 scenario input: tool_use block start for id t1 and name search,
two input_json_delta partials, content_block_stop, message_stop. -/
def c5Lines : List AnthLine :=
  [anthStartToolUse "t1" "search",
   anthJsonDelta "\x7b\"q\":",
   anthJsonDelta "\"x\"\x7d",
   anthBlockStop,
   anthMessageStop]

/-- Claim C5 expected tool call. -/
def c5Tool : ToolCall :=
  { id := "t1", type := "function", name := "search",
    arguments := "\x7b\"q\":\"x\"\x7d" }

end GalCli

namespace GalCli

/-! ## Protocol A adapter (openai.go ChatStream, read loop) -/

/-- One element of choices[0].delta.tool_calls in an openai.go stream chunk:
a fragment of a tool call, keyed by the vendor-supplied index. -/
structure OAIFrag where
  index : Nat
  id : String
  name : String
  arguments : String
deriving Repr, DecidableEq

/-- Decoded choices[0].delta of an openai.go stream chunk. -/
structure OAIDelta where
  content : String := ""
  toolCalls : List OAIFrag := []
deriving Repr, DecidableEq

/-- One line of the Protocol A response body as the scanner classifies it:
no data prefix, the DONE sentinel, a data line whose JSON fails to parse, or
a decoded chunk (none models an empty choices array). -/
inductive OAILine where
  | noData : OAILine
  | doneMark : OAILine
  | badJson : OAILine
  | chunk : Option OAIDelta → OAILine
deriving Repr, DecidableEq

/-- Zero value inserted into tcAcc on first sight of an index:
ToolCall with Type function and everything else empty (openai.go). -/
def oaiEmptyCall : ToolCall :=
  { id := "", type := "function", name := "", arguments := "" }

/-- Merge of one fragment into an accumulated call (openai.go): a nonempty
fragment id or name overwrites, the argument text is always appended. -/
def oaiMerge (cur : ToolCall) (f : OAIFrag) : ToolCall :=
  { id := if f.id ≠ "" then f.id else cur.id,
    type := "function",
    name := if f.name ≠ "" then f.name else cur.name,
    arguments := cur.arguments ++ f.arguments }

/-- tcAcc update for one fragment: the map from index to accumulated call is
modelled as an association list ordered by first insertion. -/
def accUpdate : List (Nat × ToolCall) → OAIFrag → List (Nat × ToolCall)
  | [], f => [(f.index, oaiMerge oaiEmptyCall f)]
  | (i, tc) :: rest, f =>
    if i = f.index then (i, oaiMerge tc f) :: rest
    else (i, tc) :: accUpdate rest f

/-- Processing of all fragments of one chunk, in emission order. -/
def accProcess (acc : List (Nat × ToolCall)) (fs : List OAIFrag) :
    List (Nat × ToolCall) :=
  fs.foldl accUpdate acc

/-- Accumulated call for a given index. -/
def accGet (acc : List (Nat × ToolCall)) (idx : Nat) : Option ToolCall :=
  (acc.find? (fun p => p.1 == idx)).map (·.2)

/-- State of the Protocol A read loop: tcAcc, chunkCount and hasContent in
openai.go. -/
structure OAIState where
  acc : List (Nat × ToolCall) := []
  chunkCount : Nat := 0
  hasContent : Bool := false
deriving Repr, DecidableEq

/-- Read loop of openai.go ChatStream.  Returns the delivered deltas, the
final state, and whether the DONE sentinel was reached (the Go function then
returns nil immediately).  chunkCount counts every data-prefixed line, the
sentinel included, exactly as in the Go loop.  On DONE the accumulated calls
are flushed in one delta; Go iterates a map there, so the flush order is
unspecified — the model flushes in first-insertion order. -/
def oaiRun : List OAILine → OAIState → List StreamDelta × OAIState × Bool
  | [], st => ([], st, false)
  | .noData :: rest, st => oaiRun rest st
  | .doneMark :: _, st =>
    let st := { st with chunkCount := st.chunkCount + 1 }
    if st.acc ≠ [] then
      ([{ toolCalls := st.acc.map (·.2), done := true }], st, true)
    else
      ([{ done := true }], st, true)
  | .badJson :: rest, st =>
    oaiRun rest { st with chunkCount := st.chunkCount + 1 }
  | .chunk none :: rest, st =>
    oaiRun rest { st with chunkCount := st.chunkCount + 1 }
  | .chunk (some d) :: rest, st =>
    let st := { st with chunkCount := st.chunkCount + 1 }
    let st :=
      if d.toolCalls ≠ [] then
        { st with hasContent := true, acc := accProcess st.acc d.toolCalls }
      else st
    if d.content ≠ "" then
      let r := oaiRun rest { st with hasContent := true }
      ({ content := d.content } :: r.1, r.2)
    else
      oaiRun rest st

/-- Full result of openai.go ChatStream on a response body (classified lines
plus the scanner error seen at exhaustion).  After the scan loop the Go code
fails on a scanner error, then fails when any chunk was seen but no DONE
sentinel, then fails when nothing with content was parsed at all; the model
keeps those three exits verbatim. -/
def oaiChatStream (lines : List OAILine) (scanErr : Option String) :
    List StreamDelta × Except String Unit :=
  let r := oaiRun lines {}
  if r.2.2 then (r.1, .ok ())
  else
    match scanErr with
    | some e => (r.1, .error ("stream read error: " ++ e))
    | none =>
      if r.2.1.chunkCount > 0 then
        (r.1, .error "stream ended without DONE")
      else if !r.2.1.hasContent then
        (r.1, .error "empty response from API")
      else (r.1, .ok ())

/-- Splitting of one tool call into fragments at a fixed index: the first
fragment carries the id and name, the following fragments only argument
text. -/
def oaiFragSplit (idx : Nat) (id name : String) : List String → List OAIFrag
  | [] => []
  | f :: rest =>
    { index := idx, id := id, name := name, arguments := f } ::
      rest.map (fun s => { index := idx, id := "", name := "", arguments := s })

end GalCli

namespace GalCli

/-! ## Engine fixtures and lemmas -/

/-- System message fixture. -/
def sysMsg : Message :=
  { role := "system", content := "sys", toolCalls := [], toolCallId := "" }

/-- Environment fixture: built-in registry classification, no interactive
handler, a request rendering that concatenates transcript contents and tool
arguments (standing in for json.Marshal of the request payload). -/
def plainEnv : Env :=
  { readOnly := builtinReadOnly, hasHandler := false,
    fieldsOf := fun _ => none,
    renderRequest := fun msgs => String.intercalate "|" (msgs.map fun m =>
      m.content ++ String.intercalate "," (m.toolCalls.map (·.arguments))),
    marshalResults := fun _ => "",
    maskInteractive := fun _ => "" }

/-- Tool call fixture: a bash call. -/
def bashCall : ToolCall :=
  { id := "call_1", type := "function", name := "bash",
    arguments := "\x7b\"command\":\"ls\"\x7d" }

/-- Round fixture for the C9 counterexample: a tool-call round, then a text
round. -/
def specs9 : Nat → RoundSpec := fun r =>
  if r = 0 then { stream := some ("", [bashCall]), exec := fun _ => .ok "out" }
  else { stream := some ("all done", []) }

/-- Round fixture: cancellation observed at the top of the first round. -/
def specsCancel : Nat → RoundSpec := fun _ => { cancelled := true }

theorem dropTrailing_split (l : List Message) :
    ∃ d k, l = d ++ k ∧ dropTrailing l = k ∧ (∀ m ∈ d, droppable m = true)
      ∧ (k = [] ∨ ∃ m k2, k = m :: k2 ∧ droppable m = false) := by
  induction l with
  | nil => exact ⟨[], [], rfl, rfl, by simp, Or.inl rfl⟩
  | cons m rest ih =>
    by_cases hm : droppable m = true
    · obtain ⟨d, k, h1, h2, h3, h4⟩ := ih
      refine ⟨m :: d, k, by simp [h1], by simp [dropTrailing, hm, h2], ?_, h4⟩
      intro x hx
      rcases List.mem_cons.1 hx with hx | hx
      · exact hx ▸ hm
      · exact h3 x hx
    · refine ⟨[], m :: rest, rfl, by simp [dropTrailing, hm], by simp, ?_⟩
      exact Or.inr ⟨m, rest, rfl, by simpa using hm⟩

theorem cleanIncomplete_split (msgs : List Message) :
    ∃ pre suf, msgs = pre ++ suf ∧ cleanIncompleteToolCalls msgs = pre
      ∧ (∀ m ∈ suf, droppable m = true)
      ∧ (pre = [] ∨ ∃ p m, pre = p ++ [m] ∧ droppable m = false) := by
  obtain ⟨d, k, h1, h2, h3, h4⟩ := dropTrailing_split msgs.reverse
  refine ⟨k.reverse, d.reverse, ?_, ?_, ?_, ?_⟩
  · have := congrArg List.reverse h1
    simpa [List.reverse_append] using this
  · simp [cleanIncompleteToolCalls, h2]
  · intro m hm
    exact h3 m (by simpa using hm)
  · rcases h4 with h | ⟨m, k2, hk, hm⟩
    · exact Or.inl (by simp [h])
    · exact Or.inr ⟨k2.reverse, m, by simp [hk], hm⟩

theorem roundTools_error_msgs {env : Env} {snap : List Message} {st : EngState}
    {spec : RoundSpec} {calls : List ToolCall} {st2 : EngState} {e : TurnError}
    (h : roundTools env snap st spec calls = .stop st2 (.error e)) :
    st2.msgs = snap := by
  unfold roundTools at h
  by_cases hreq : requestsAt env calls (findInteractiveIdx env calls) ≠ []
      ∧ env.hasHandler = true
  · rw [if_pos hreq] at h
    cases hi : spec.interact with
    | error u =>
      rw [hi] at h
      cases h
      rfl
    | ok vals =>
      rw [hi] at h
      cases h
  · rw [if_neg hreq] at h
    cases h

theorem roundStep_error_msgs {env : Env} {snap : List Message} {st : EngState}
    {spec : RoundSpec} {st2 : EngState} {e : TurnError}
    (h : roundStep env snap st spec = .stop st2 (.error e)) : st2.msgs = snap := by
  unfold roundStep at h
  by_cases hc : spec.cancelled = true
  · rw [if_pos hc] at h
    cases h
    rfl
  · rw [if_neg hc] at h
    cases hs : spec.stream with
    | none =>
      rw [hs] at h
      cases h
      rfl
    | some p =>
      obtain ⟨content, calls⟩ := p
      rw [hs] at h
      dsimp only at h
      by_cases hemp : calls.isEmpty = true
      · rw [if_pos hemp] at h
        by_cases hct : content = ""
        · rw [if_pos hct] at h
          cases h
          rfl
        · rw [if_neg hct] at h
          cases h
      · rw [if_neg hemp] at h
        exact roundTools_error_msgs h

theorem runRounds_error_msgs {env : Env} {snap : List Message}
    {specs : Nat → RoundSpec} :
    ∀ (fuel r : Nat) (st st2 : EngState) (e : TurnError),
      runRounds env snap specs fuel r st = (st2, .error e) → st2.msgs = snap := by
  intro fuel
  induction fuel with
  | zero =>
    intro r st st2 e h
    cases h
    rfl
  | succ n ih =>
    intro r st st2 e h
    unfold runRounds at h
    cases hstep : roundStep env snap st (specs r) with
    | next st3 =>
      rw [hstep] at h
      exact ih _ _ _ _ h
    | stop st3 res =>
      rw [hstep] at h
      injection h with h1 h2
      subst h1
      subst h2
      exact roundStep_error_msgs hstep

theorem runRounds_stop {env : Env} {snap : List Message}
    {specs : Nat → RoundSpec} {fuel r : Nat} {st st2 : EngState}
    {res : Except TurnError Unit}
    (hfuel : fuel ≠ 0)
    (hstep : roundStep env snap st (specs r) = .stop st2 res) :
    runRounds env snap specs fuel r st = (st2, res) := by
  cases fuel with
  | zero => exact absurd rfl hfuel
  | succ n =>
    unfold runRounds
    rw [hstep]

theorem roundStep_text_exit {env : Env} {snap : List Message} {st : EngState}
    {spec : RoundSpec} {content : String}
    (hc : spec.cancelled = false)
    (hs : spec.stream = some (content, []))
    (hne : content ≠ "") :
    roundStep env snap st spec
      = .stop (appendMsg (withReqLog env st) (assistantTextMsg content)) (.ok ()) := by
  unfold roundStep
  rw [if_neg (by simp [hc]), hs]
  simp [hne]

theorem roundStep_empty_exit {env : Env} {snap : List Message} {st : EngState}
    {spec : RoundSpec}
    (hc : spec.cancelled = false)
    (hs : spec.stream = some ("", [])) :
    roundStep env snap st spec
      = .stop { withReqLog env st with msgs := snap } (.error .emptyResponse) := by
  unfold roundStep
  rw [if_neg (by simp [hc]), hs]
  simp

end GalCli

namespace GalCli

/-- Concatenation of argument fragments in delivery order. -/
def joinFrags : List String → String
  | [] => ""
  | s :: rest => s ++ joinFrags rest

theorem oaiMerge_emptyIdFrag (c : ToolCall) (f : OAIFrag) (i : Nat) (s : String) :
    oaiMerge (oaiMerge c f) { index := i, id := "", name := "", arguments := s }
      = oaiMerge c { f with arguments := f.arguments ++ s } := by
  simp [oaiMerge, String.append_assoc]

theorem accUpdate_emptyIdFrag (acc : List (Nat × ToolCall)) (f : OAIFrag) (s : String) :
    accUpdate (accUpdate acc f)
        { index := f.index, id := "", name := "", arguments := s }
      = accUpdate acc { f with arguments := f.arguments ++ s } := by
  induction acc with
  | nil => simp [accUpdate, oaiMerge_emptyIdFrag]
  | cons p rest ih =>
    by_cases hp : p.1 = f.index
    · simp [accUpdate, hp, oaiMerge_emptyIdFrag]
    · simp [accUpdate, hp, ih]

theorem accProcess_emptyIdFrags (frags : List String) :
    ∀ (acc : List (Nat × ToolCall)) (g : OAIFrag),
    accProcess (accUpdate acc g)
        (frags.map (fun s => { index := g.index, id := "", name := "", arguments := s }))
      = accUpdate acc { g with arguments := g.arguments ++ joinFrags frags} := by
  induction frags with
  | nil => intro acc g; simp [accProcess, joinFrags]
  | cons s rest ih =>
    intro acc g
    have h1 : accProcess (accUpdate acc g)
        ((s :: rest).map (fun t => ({ index := g.index, id := "", name := "", arguments := t } : OAIFrag)))
        = accProcess (accUpdate (accUpdate acc g)
            { index := g.index, id := "", name := "", arguments := s })
          (rest.map (fun t => { index := g.index, id := "", name := "", arguments := t })) := rfl
    rw [h1, accUpdate_emptyIdFrag, ih, joinFrags]
    simp [String.append_assoc]

theorem anthRun_jsonDelta (p : String) (rest : List AnthLine) (st : AnthState) :
    anthRun (anthJsonDelta p :: rest) st
      = anthRun rest { st with curArgs := st.curArgs ++ p } := rfl

theorem anthRun_jsonDeltas (frags : List String) :
    ∀ (st : AnthState) (rest : List AnthLine),
    anthRun (frags.map anthJsonDelta ++ rest) st
      = anthRun rest { st with curArgs := st.curArgs ++ joinFrags frags } := by
  induction frags with
  | nil => intro st rest; simp [joinFrags]
  | cons s fs ih =>
    intro st rest
    simp only [List.map_cons, List.cons_append, anthRun_jsonDelta, ih, joinFrags,
      String.append_assoc]

end GalCli

/-- C4: for every tool call, delivering the argument string split into any
sequence of fragments in index order accumulates to the same state (hence
the same ToolCall: same id, name and argument string) as delivering it as
one single fragment, in both adapters.  Protocol A: fragments at a fixed
vendor index, id and name in the first fragment, merge into tcAcc exactly as
the single fragment whose argument text is the concatenation.  Protocol B:
a run of input_json_delta events behaves exactly as one input_json_delta
event carrying the concatenation. -/
theorem c4_fragments_concatenate_by_index
    (idx : Nat) (id name : String) (frags : List String) (hne : frags ≠ [])
    (acc : List (Nat × GalCli.ToolCall)) (st : GalCli.AnthState)
    (rest : List GalCli.AnthLine) :
    GalCli.accProcess acc (GalCli.oaiFragSplit idx id name frags)
      = GalCli.accProcess acc
          [{ index := idx, id := id, name := name,
             arguments := GalCli.joinFrags frags }]
    ∧ GalCli.anthRun (frags.map GalCli.anthJsonDelta ++ rest) st
      = GalCli.anthRun (GalCli.anthJsonDelta (GalCli.joinFrags frags) :: rest) st := by
  constructor
  · match frags, hne with
    | f :: fs, _ =>
      have h1 : GalCli.accProcess acc (GalCli.oaiFragSplit idx id name (f :: fs))
          = GalCli.accProcess
              (GalCli.accUpdate acc { index := idx, id := id, name := name, arguments := f })
              (fs.map (fun s => { index := idx, id := "", name := "", arguments := s })) := rfl
      rw [h1, GalCli.accProcess_emptyIdFrags]
      rfl
  · rw [GalCli.anthRun_jsonDeltas, GalCli.anthRun_jsonDelta]

/-- C4 witness: the fragments of the spec scenario, delivered in index
order, produce the same accumulator as the single fragment whose argument
text is their concatenation. -/
theorem c4_fragments_concatenate_by_index_witness :
    GalCli.accProcess []
        (GalCli.oaiFragSplit 0 "call_1" "f" ["\x7b\"a\":1", "\x7d"])
      = GalCli.accProcess []
          [{ index := 0, id := "call_1", name := "f",
             arguments := "\x7b\"a\":1\x7d" }]
    ∧ GalCli.joinFrags ["\x7b\"a\":1", "\x7d"] = "\x7b\"a\":1\x7d" := by
  have h := c4_fragments_concatenate_by_index 0 "call_1" "f"
    ["\x7b\"a\":1", "\x7d"] (by decide) [] {} []
  exact ⟨by simpa using h.1, by decide⟩

namespace GalCli

theorem oaiRun_no_done (lines : List OAILine) :
    ∀ st : OAIState, OAILine.doneMark ∉ lines → (oaiRun lines st).2.2 = false := by
  induction lines with
  | nil => intro st _; rfl
  | cons l rest ih =>
    intro st hmem
    have hr : OAILine.doneMark ∉ rest := fun h => hmem (List.mem_cons_of_mem _ h)
    have hl : l ≠ OAILine.doneMark := fun h => hmem (h ▸ List.mem_cons_self _ _)
    cases l with
    | noData => simpa [oaiRun] using ih st hr
    | doneMark => exact absurd rfl hl
    | badJson => simpa [oaiRun] using ih _ hr
    | chunk o =>
      cases o with
      | none => simpa [oaiRun] using ih _ hr
      | some d =>
        simp only [oaiRun]
        split_ifs <;> simp [ih _ hr]

theorem oaiRun_content_imp_chunk (lines : List OAILine) :
    ∀ st : OAIState, (st.hasContent = true → 0 < st.chunkCount) →
      (oaiRun lines st).2.1.hasContent = true →
      0 < (oaiRun lines st).2.1.chunkCount := by
  induction lines with
  | nil => intro st h; exact h
  | cons l rest ih =>
    intro st h
    cases l with
    | noData => simpa [oaiRun] using ih st h
    | doneMark =>
      simp only [oaiRun]
      split_ifs <;> exact fun _ => Nat.succ_pos _
    | badJson => simpa [oaiRun] using ih _ (fun _ => Nat.succ_pos _)
    | chunk o =>
      cases o with
      | none => simpa [oaiRun] using ih _ (fun _ => Nat.succ_pos _)
      | some d =>
        simp only [oaiRun]
        split_ifs <;> simpa [oaiRun] using ih _ (fun _ => Nat.succ_pos _)

theorem anthRun_no_stop (lines : List AnthLine) :
    ∀ st : AnthState,
      (∀ ev : AnthEvent, AnthLine.data ev ∈ lines → ev.type ≠ "message_stop") →
      (anthRun lines st).2.2 = false := by
  induction lines with
  | nil => intro st _; rfl
  | cons l rest ih =>
    intro st h
    have hr : ∀ ev : AnthEvent, AnthLine.data ev ∈ rest → ev.type ≠ "message_stop" :=
      fun ev hm => h ev (List.mem_cons_of_mem _ hm)
    cases l with
    | noData => simpa [anthRun] using ih st hr
    | badJson => simpa [anthRun] using ih st hr
    | data e =>
      have he : e.type ≠ "message_stop" := h e (List.mem_cons_self _ _)
      simp only [anthRun]
      split_ifs <;> first
        | exact absurd (by assumption) he
        | simp [ih _ hr]

end GalCli

/-- C6 (amended): the two adapters treat an input that ends before the
completion marker differently.  Protocol A: whenever the line list holds no
DONE sentinel, ChatStream returns an error (stream read error, stream ended
without DONE, or empty response).  Protocol B: when no message_stop event
occurs, ChatStream returns the scanner error when there is one, but a
cleanly ended stream (no scanner error) returns success, not an error.  In
both adapters a line whose JSON fails to parse is skipped without failing
the stream (in Protocol A it only bumps the chunk counter). -/
theorem c6_incomplete_stream_behaviour :
    (∀ (lines : List GalCli.OAILine) (scanErr : Option String),
        GalCli.OAILine.doneMark ∉ lines →
        ∃ e, (GalCli.oaiChatStream lines scanErr).2 = .error e)
    ∧ (∀ (lines : List GalCli.AnthLine) (err : String),
        (∀ ev : GalCli.AnthEvent,
            GalCli.AnthLine.data ev ∈ lines → ev.type ≠ "message_stop") →
        (GalCli.anthChatStream lines (some err)).2 = .error err)
    ∧ (∀ (rest : List GalCli.AnthLine) (st : GalCli.AnthState),
        GalCli.anthRun (.badJson :: rest) st = GalCli.anthRun rest st)
    ∧ (∀ (rest : List GalCli.OAILine) (st : GalCli.OAIState),
        GalCli.oaiRun (.badJson :: rest) st
          = GalCli.oaiRun rest { st with chunkCount := st.chunkCount + 1 }) := by
  refine ⟨?_, ?_, fun rest st => rfl, fun rest st => rfl⟩
  · intro lines scanErr h
    have hf := GalCli.oaiRun_no_done lines {} h
    have hinv := GalCli.oaiRun_content_imp_chunk lines {} (by simp)
    cases scanErr with
    | some e => exact ⟨"stream read error: " ++ e, by simp [GalCli.oaiChatStream, hf]⟩
    | none =>
      by_cases hc : 0 < (GalCli.oaiRun lines {}).2.1.chunkCount
      · exact ⟨"stream ended without DONE", by simp [GalCli.oaiChatStream, hf, hc]⟩
      · have hncb : (GalCli.oaiRun lines {}).2.1.hasContent = false := by
          cases hb : (GalCli.oaiRun lines {}).2.1.hasContent with
          | false => rfl
          | true => exact absurd (hinv hb) hc
        exact ⟨"empty response from API", by simp [GalCli.oaiChatStream, hf, hc, hncb]⟩
  · intro lines err h
    have hf := GalCli.anthRun_no_stop lines {} h
    simp [GalCli.anthChatStream, hf]

/-- C6 witness: a Protocol A body consisting of one unparsable data line and
no DONE sentinel makes ChatStream fail, and a Protocol B body that ends in a
scanner error before message_stop fails with that error. -/
theorem c6_incomplete_stream_behaviour_witness :
    (∃ e, (GalCli.oaiChatStream [.badJson] none).2 = .error e)
    ∧ (GalCli.anthChatStream [GalCli.anthTextDelta "hi"]
        (some "connection reset")).2 = .error "connection reset" := by
  refine ⟨c6_incomplete_stream_behaviour.1 [.badJson] none (by decide),
    c6_incomplete_stream_behaviour.2.1 [GalCli.anthTextDelta "hi"]
      "connection reset" ?_⟩
  intro ev hm
  simp only [GalCli.anthTextDelta, List.mem_singleton] at hm
  cases hm
  decide

/-- C6 counterexample: the claim states that for every adapter a stream that
ends before the completion marker makes ChatStream return an error.  On the
Protocol B input consisting of a single text delta and a clean EOF (no
scanner error, no message_stop), anthropic.go returns scanner.Err(), which
is nil: ChatStream reports success, refuting the claim; the Protocol A
adapter errors on the analogous input. -/
theorem c6_counterexample_protocolB_clean_eof :
    GalCli.anthChatStream [GalCli.anthTextDelta "hi"] none
      = ([{ content := "hi" }], .ok ())
    ∧ GalCli.oaiChatStream [.chunk (some { content := "hi" })] none
      = ([{ content := "hi" }], .error "stream ended without DONE") := by
  constructor
  · rfl
  · rfl

/-- C5: on the Protocol B stream content_block_start(tool_use,id=t1,
name=search), partials of the argument JSON, content_block_stop,
message_stop, the adapter emits exactly one ToolCall delta, carrying id t1,
name search and the concatenated argument string, followed only by the
completion delta; the ToolCall is emitted at the content_block_stop event:
before that event no delta has been emitted at all. -/
theorem c5_protocolB_tool_use_scenario :
    GalCli.anthChatStream GalCli.c5Lines none =
      ([{ toolCalls := [GalCli.c5Tool] }, { done := true }], .ok ())
    ∧ (GalCli.anthRun (GalCli.c5Lines.take 3) {}).1 = [] := by
  constructor
  · rfl
  · rfl

namespace GalCli

/-- Transcript fixture with a dangling tool sequence at the end: system,
user, assistant with tool calls, and two tool results (the last round of an
interrupted turn). -/
def c10Msgs : List Message :=
  [sysMsg, userMsgOf "old", assistantCallsMsg [bashCall],
   { role := "tool", content := "partial", toolCalls := [], toolCallId := "call_1" },
   { role := "tool", content := "partial2", toolCalls := [], toolCallId := "call_2" }]

/-- Round fixture: an immediate text-only success. -/
def specsText : Nat → RoundSpec := fun _ => { stream := some ("fine", []) }

theorem droppable_iff (m : Message) :
    droppable m = true ↔
      (m.role = "tool" ∨ (m.role = "assistant" ∧ m.toolCalls ≠ [])) := by
  simp [droppable]

end GalCli

/-- C10: at the start of every turn, before the rollback snapshot is taken
and before the user message is appended, SendWithInteractive silently
removes the maximal trailing run of tool messages and of assistant messages
carrying tool calls, stopping as soon as the last message is anything else
(a user, system, or plain-text assistant message in particular); a turn on
such a transcript can therefore succeed with a transcript shorter than the
one it started from. -/
theorem c10_clean_incomplete_tool_sequences :
    (∀ msgs : List GalCli.Message,
      ∃ pre suf, msgs = pre ++ suf
        ∧ GalCli.cleanIncompleteToolCalls msgs = pre
        ∧ (∀ m ∈ suf, m.role = "tool" ∨ (m.role = "assistant" ∧ m.toolCalls ≠ []))
        ∧ (pre = [] ∨ ∃ p m, pre = p ++ [m]
            ∧ ¬(m.role = "tool" ∨ (m.role = "assistant" ∧ m.toolCalls ≠ []))))
    ∧ (∀ (env : GalCli.Env) (sv0 : List String) (msgs : List GalCli.Message)
        (u : String) (specs : Nat → GalCli.RoundSpec),
        (specs 0).cancelled = true →
        (GalCli.sendTurn env sv0 msgs u specs).1.msgs
          = GalCli.cleanIncompleteToolCalls msgs)
    ∧ ((GalCli.sendTurn GalCli.plainEnv [] GalCli.c10Msgs "next" GalCli.specsText).2
        = .ok ()
      ∧ (GalCli.sendTurn GalCli.plainEnv [] GalCli.c10Msgs "next"
          GalCli.specsText).1.msgs.length = 4
      ∧ GalCli.c10Msgs.length = 5) := by
  refine ⟨?_, ?_, rfl, rfl, rfl⟩
  · intro msgs
    obtain ⟨pre, suf, h1, h2, h3, h4⟩ := GalCli.cleanIncomplete_split msgs
    refine ⟨pre, suf, h1, h2, ?_, ?_⟩
    · intro m hm
      exact (GalCli.droppable_iff m).1 (h3 m hm)
    · rcases h4 with h | ⟨p, m, hp, hm⟩
      · exact Or.inl h
      · exact Or.inr ⟨p, m, hp, fun hcon =>
          by rw [(GalCli.droppable_iff m).2 hcon] at hm; cases hm⟩
  · intro env sv0 msgs u specs hcan
    have hstep : GalCli.roundStep env (GalCli.cleanIncompleteToolCalls msgs)
        { msgs := GalCli.cleanIncompleteToolCalls msgs ++ [GalCli.userMsgOf u],
          sv := sv0, log := [GalCli.LogEntry.line ("USER: " ++ u)] } (specs 0)
        = .stop { msgs := GalCli.cleanIncompleteToolCalls msgs,
                  sv := sv0,
                  log := [GalCli.LogEntry.line ("USER: " ++ u)] }
            (.error .cancelled) := by
      unfold GalCli.roundStep
      rw [if_pos hcan]
    have hrun := @GalCli.runRounds_stop env (GalCli.cleanIncompleteToolCalls msgs)
      specs GalCli.maxRounds 0 _ _ _ (by decide) hstep
    show (GalCli.runRounds env (GalCli.cleanIncompleteToolCalls msgs) specs
        GalCli.maxRounds 0
        { msgs := GalCli.cleanIncompleteToolCalls msgs ++ [GalCli.userMsgOf u],
          sv := sv0, log := [GalCli.LogEntry.line ("USER: " ++ u)] }).1.msgs
      = GalCli.cleanIncompleteToolCalls msgs
    rw [hrun]

/-- C10 witness: on the fixture transcript ending in a dangling tool
sequence, the turn state after an immediately-cancelled send is exactly the
cleaned transcript, which drops the trailing assistant tool-call message and
both tool results. -/
theorem c10_clean_incomplete_tool_sequences_witness :
    (GalCli.sendTurn GalCli.plainEnv [] GalCli.c10Msgs "hi" GalCli.specsCancel).1.msgs
      = GalCli.cleanIncompleteToolCalls GalCli.c10Msgs
    ∧ GalCli.cleanIncompleteToolCalls GalCli.c10Msgs
      = [GalCli.sysMsg, GalCli.userMsgOf "old"] :=
  ⟨c10_clean_incomplete_tool_sequences.2.1 GalCli.plainEnv [] GalCli.c10Msgs "hi"
    GalCli.specsCancel rfl, rfl⟩

/-- C1: whenever SendWithInteractive ends in a terminal failure (round cap
exceeded, cancellation observed at the top of a round, a stream or adapter
error, an empty model response — and likewise an interactive-collection
failure), it returns that error and the transcript is restored exactly to
the pre-turn snapshot recorded before the user message was appended (the
cleaned transcript); no partial assistant or tool message from the turn
remains. -/
theorem c1_terminal_failure_rolls_back
    (env : GalCli.Env) (sv0 : List String) (msgs0 : List GalCli.Message)
    (u : String) (specs : Nat → GalCli.RoundSpec) (e : GalCli.TurnError)
    (h : (GalCli.sendTurn env sv0 msgs0 u specs).2 = .error e) :
    (GalCli.sendTurn env sv0 msgs0 u specs).1.msgs
      = GalCli.cleanIncompleteToolCalls msgs0 := by
  refine @GalCli.runRounds_error_msgs env (GalCli.cleanIncompleteToolCalls msgs0)
    specs GalCli.maxRounds 0
    { msgs := GalCli.cleanIncompleteToolCalls msgs0 ++ [GalCli.userMsgOf u],
      sv := sv0, log := [GalCli.LogEntry.line ("USER: " ++ u)] }
    (GalCli.sendTurn env sv0 msgs0 u specs).1 e ?_
  rw [← h]
  exact Prod.mk.eta.symm

/-- C1 witness: a turn cancelled at the top of the first round fails with
the cancellation error and leaves the transcript at the pre-turn
snapshot. -/
theorem c1_terminal_failure_rolls_back_witness :
    (GalCli.sendTurn GalCli.plainEnv [] [GalCli.sysMsg] "hi" GalCli.specsCancel).2
      = .error .cancelled
    ∧ (GalCli.sendTurn GalCli.plainEnv [] [GalCli.sysMsg] "hi" GalCli.specsCancel).1.msgs
      = GalCli.cleanIncompleteToolCalls [GalCli.sysMsg] :=
  ⟨rfl, c1_terminal_failure_rolls_back GalCli.plainEnv [] [GalCli.sysMsg] "hi"
    GalCli.specsCancel .cancelled rfl⟩

/-- C9 (amended): a turn whose first round produces zero tool calls and
nonempty text succeeds and the transcript becomes exactly the pre-turn
(cleaned) transcript plus the user message and one assistant message with
the accumulated text — a growth of exactly two messages relative to the
pre-turn snapshot.  When the terminating text round is preceded by
tool-call rounds, their assistant and tool messages are retained, so the
turn grows by more than two (see the counterexample).  A round with zero
tool calls and empty text fails the turn with rollback. -/
theorem c9_text_round_growth
    (env : GalCli.Env) (sv0 : List String) (msgs0 : List GalCli.Message)
    (u : String) (specs : Nat → GalCli.RoundSpec) (content : String)
    (hc : (specs 0).cancelled = false)
    (hs : (specs 0).stream = some (content, [])) :
    (content ≠ "" →
      (GalCli.sendTurn env sv0 msgs0 u specs).2 = .ok ()
      ∧ (GalCli.sendTurn env sv0 msgs0 u specs).1.msgs
        = GalCli.cleanIncompleteToolCalls msgs0
            ++ [GalCli.userMsgOf u, GalCli.assistantTextMsg content])
    ∧ (content = "" →
      (GalCli.sendTurn env sv0 msgs0 u specs).2 = .error .emptyResponse
      ∧ (GalCli.sendTurn env sv0 msgs0 u specs).1.msgs
        = GalCli.cleanIncompleteToolCalls msgs0) := by
  constructor
  · intro hne
    have hsend : GalCli.sendTurn env sv0 msgs0 u specs
        = (GalCli.appendMsg (GalCli.withReqLog env
            { msgs := GalCli.cleanIncompleteToolCalls msgs0 ++ [GalCli.userMsgOf u],
              sv := sv0, log := [GalCli.LogEntry.line ("USER: " ++ u)] })
            (GalCli.assistantTextMsg content), .ok ()) :=
      GalCli.runRounds_stop (by decide) (GalCli.roundStep_text_exit hc hs hne)
    rw [hsend]
    exact ⟨rfl, by simp [GalCli.appendMsg, GalCli.withReqLog]⟩
  · intro hz
    subst hz
    have hsend : GalCli.sendTurn env sv0 msgs0 u specs
        = ({ GalCli.withReqLog env
            { msgs := GalCli.cleanIncompleteToolCalls msgs0 ++ [GalCli.userMsgOf u],
              sv := sv0, log := [GalCli.LogEntry.line ("USER: " ++ u)] } with
            msgs := GalCli.cleanIncompleteToolCalls msgs0 },
          .error .emptyResponse) :=
      GalCli.runRounds_stop (by decide) (GalCli.roundStep_empty_exit hc hs)
    rw [hsend]
    exact ⟨rfl, rfl⟩

/-- C9 witness: a single-round text turn on a clean transcript succeeds with
the transcript extended by exactly the user and assistant messages. -/
theorem c9_text_round_growth_witness :
    (GalCli.sendTurn GalCli.plainEnv [] [GalCli.sysMsg] "hello" GalCli.specsText).2
      = .ok ()
    ∧ (GalCli.sendTurn GalCli.plainEnv [] [GalCli.sysMsg] "hello"
        GalCli.specsText).1.msgs
      = GalCli.cleanIncompleteToolCalls [GalCli.sysMsg]
          ++ [GalCli.userMsgOf "hello", GalCli.assistantTextMsg "fine"] :=
  (c9_text_round_growth GalCli.plainEnv [] [GalCli.sysMsg] "hello" GalCli.specsText
    "fine" rfl rfl).1 (by decide)

/-- C9 counterexample: the claim as stated requires every turn that ends
with a zero-tool-call nonempty-text round to grow the transcript by exactly
two messages.  A two-round turn (a tool-call round, then the text round)
ends with such a round and succeeds, but grows the transcript from one
message to five — by four, not two — because the assistant tool-call message
and the tool result of the first round are retained. -/
theorem c9_counterexample_multi_round_growth :
    (GalCli.sendTurn GalCli.plainEnv [] [GalCli.sysMsg] "hi" GalCli.specs9).2 = .ok ()
    ∧ (GalCli.specs9 1).stream = some ("all done", [])
    ∧ (GalCli.sendTurn GalCli.plainEnv [] [GalCli.sysMsg] "hi"
        GalCli.specs9).1.msgs.length = 5
    ∧ ([GalCli.sysMsg] : List GalCli.Message).length = 1 :=
  ⟨rfl, rfl, rfl, rfl⟩

namespace GalCli

theorem findInteractiveIdx_none {env : Env} {calls : List ToolCall}
    (h : ∀ tc ∈ calls, tc.name ≠ "interactive") :
    findInteractiveIdx env calls = none := by
  unfold findInteractiveIdx
  rw [List.find?_eq_none]
  intro i hi
  have hlt : i < calls.length := List.mem_range.1 hi
  have hn : calls[i].name ≠ "interactive" :=
    h calls[i] (List.getElem_mem hlt)
  simp [List.getElem?_eq_getElem hlt, hn]

theorem roundStep_to_roundTools {env : Env} {snap : List Message}
    {st : EngState} {spec : RoundSpec} {content : String}
    {calls : List ToolCall}
    (hc : spec.cancelled = false) (hs : spec.stream = some (content, calls))
    (hne : calls ≠ []) :
    roundStep env snap st spec
      = roundTools env snap
          (appendMsg (withReqLog env st) (assistantCallsMsg calls)) spec calls := by
  unfold roundStep
  rw [if_neg (by simp [hc]), hs]
  dsimp only
  rw [if_neg (by simp [hne])]

theorem fillResults_length (n : Nat) (f : Nat → String) (arrival : List Nat) :
    (fillResults n f arrival).length = n := by
  suffices hg : ∀ (l : List Nat) (acc : List String),
      (l.foldl (fun ac i => ac.set i (f i)) acc).length = acc.length by
    simpa [fillResults] using hg arrival (List.replicate n "")
  intro l
  induction l with
  | nil => intro acc; rfl
  | cons i rest ih =>
    intro acc
    simpa [List.length_set] using ih (acc.set i (f i))

theorem roundResults_length (env : Env) (spec : RoundSpec)
    (calls : List ToolCall) (iIdx : Option Nat)
    (interRes : Option (List (String × String))) :
    (roundResults env spec calls iIdx interRes).length = calls.length := by
  unfold roundResults
  split
  · exact fillResults_length _ _ _
  · simp

theorem execPhase_msgs (env : Env) (st : EngState) (spec : RoundSpec)
    (calls : List ToolCall) (iIdx : Option Nat)
    (interRes : Option (List (String × String))) (sensKeys : List String) :
    (execPhase env st spec calls iIdx interRes sensKeys).msgs
      = st.msgs ++ (calls.zip (roundResults env spec calls iIdx interRes)).map
          (fun p => { role := "tool", content := p.2,
                      toolCalls := [], toolCallId := p.1.id }) := rfl

theorem foldl_set_getElem? (f : Nat → String) :
    ∀ (arrival : List Nat) (acc : List String) (j : Nat),
      (∀ i ∈ arrival, i < acc.length) →
      (arrival.foldl (fun ac i => ac.set i (f i)) acc)[j]?
        = if j ∈ arrival then some (f j) else acc[j]? := by
  intro arrival
  induction arrival with
  | nil => intro acc j _; simp
  | cons i rest ih =>
    intro acc j hlt
    have hrest : ∀ x ∈ rest, x < (acc.set i (f i)).length := by
      intro x hx
      simpa [List.length_set] using hlt x (List.mem_cons_of_mem _ hx)
    by_cases hjr : j ∈ rest
    · simp only [List.foldl_cons, ih (acc.set i (f i)) j hrest, hjr, if_true]
      simp [List.mem_cons, hjr]
    · simp only [List.foldl_cons, ih (acc.set i (f i)) j hrest, hjr, if_false]
      by_cases hji : j = i
      · subst hji
        have hj : j < acc.length := hlt j (List.mem_cons_self _ _)
        simp [List.getElem?_set, hj]
      · simp [List.getElem?_set, Ne.symm hji, hji, hjr]

theorem fillResults_of_perm {n : Nat} {arrival : List Nat} (f : Nat → String)
    (hp : arrival.Perm (List.range n)) :
    fillResults n f arrival = (List.range n).map f := by
  have hmem : ∀ i ∈ arrival, i < n := fun i hi =>
    List.mem_range.1 (hp.mem_iff.1 hi)
  apply List.ext_getElem?
  intro j
  rw [fillResults, foldl_set_getElem? f arrival (List.replicate n "") j
    (by simpa using hmem)]
  by_cases hj : j < n
  · have hjm : j ∈ arrival := hp.mem_iff.2 (List.mem_range.2 hj)
    simp [hjm, hj]
  · have hjm : j ∉ arrival := fun hc => hj (hmem j hc)
    have hge : n ≤ j := Nat.le_of_not_lt hj
    have h1 : (List.replicate n "")[j]? = none :=
      List.getElem?_eq_none (by simpa using hge)
    have h2 : (List.range n)[j]? = none :=
      List.getElem?_eq_none (by simpa using hge)
    simp [hjm, h1, h2]

end GalCli

/-- C2: a round executes its tool calls concurrently exactly when the
registry classifies every call ReadOnly, there is more than one call, and no
call is the interactive-input tool (equivalent, under a registry where the
interactive tool is not read-only, to the allReadOnly and more-than-one test
of engine.go); in every other shape the round runs strictly serially in
emission order (roundResults walks List.range in order).  In both modes a
failing call is downgraded to an error-text result for that call alone, and
a round with tool calls always continues the loop (returns next, never a
turn error) no matter what the per-call outcomes are. -/
theorem c2_concurrency_classification (env : GalCli.Env)
    (calls : List GalCli.ToolCall)
    (hro : env.readOnly "interactive" = false) :
    (GalCli.parallelMode env (GalCli.findInteractiveIdx env calls) calls = true ↔
      ((∀ tc ∈ calls, env.readOnly tc.name = true) ∧ 1 < calls.length
        ∧ ∀ tc ∈ calls, tc.name ≠ "interactive"))
    ∧ (∀ e, GalCli.execText (.error e) = "error: " ++ e)
    ∧ (∀ r, GalCli.execText (.ok r) = r)
    ∧ (∀ (snap : List GalCli.Message) (st : GalCli.EngState)
        (spec : GalCli.RoundSpec) (content : String),
        spec.cancelled = false → spec.stream = some (content, calls) →
        calls ≠ [] → GalCli.findInteractiveIdx env calls = none →
        GalCli.roundStep env snap st spec
          = .next (GalCli.execPhase env
              (GalCli.appendMsg (GalCli.withReqLog env st)
                (GalCli.assistantCallsMsg calls))
              spec calls none none [])) := by
  refine ⟨⟨?_, ?_⟩, fun e => rfl, fun r => rfl, ?_⟩
  · intro hp
    have hp2 := hp
    unfold GalCli.parallelMode at hp2
    simp only [Bool.and_eq_true, decide_eq_true_eq, List.all_eq_true] at hp2
    obtain ⟨⟨-, hall⟩, hlen⟩ := hp2
    refine ⟨hall, hlen, ?_⟩
    intro tc htc hname
    have := hall tc htc
    rw [hname, hro] at this
    cases this
  · rintro ⟨hall, hlen, hnames⟩
    unfold GalCli.parallelMode
    rw [GalCli.findInteractiveIdx_none hnames]
    simp only [Option.isNone_none, Bool.true_and, Bool.and_eq_true,
      List.all_eq_true, decide_eq_true_eq]
    exact ⟨hall, hlen⟩
  · intro snap st spec content hc hs hne hidx
    rw [GalCli.roundStep_to_roundTools hc hs hne]
    unfold GalCli.roundTools
    rw [hidx]
    simp [GalCli.requestsAt]

namespace GalCli

/-- Read-only call fixtures for the spec scenario. -/
def roCallA : ToolCall :=
  { id := "a1", type := "function", name := "file_read", arguments := "\x7b\x7d" }

def roCallB : ToolCall :=
  { id := "b1", type := "function", name := "grep", arguments := "\x7b\x7d" }

/-- Mutating call fixture for the spec scenario. -/
def mutCallC : ToolCall :=
  { id := "c1", type := "function", name := "file_write", arguments := "\x7b\x7d" }

end GalCli

/-- C2 witness: with the built-in registry classification, the spec scenario
[A, B, C] with C mutating is fully serial, the two-call read-only round
[A, B] is parallel, and an execution failure is downgraded to error text. -/
theorem c2_concurrency_classification_witness :
    GalCli.parallelMode GalCli.plainEnv
      (GalCli.findInteractiveIdx GalCli.plainEnv
        [GalCli.roCallA, GalCli.roCallB, GalCli.mutCallC])
      [GalCli.roCallA, GalCli.roCallB, GalCli.mutCallC] = false
    ∧ GalCli.parallelMode GalCli.plainEnv
      (GalCli.findInteractiveIdx GalCli.plainEnv [GalCli.roCallA, GalCli.roCallB])
      [GalCli.roCallA, GalCli.roCallB] = true
    ∧ GalCli.execText (.error "boom") = "error: boom" := by
  obtain ⟨hiff3, hdown, -, -⟩ := c2_concurrency_classification GalCli.plainEnv
    [GalCli.roCallA, GalCli.roCallB, GalCli.mutCallC] rfl
  obtain ⟨hiff2, -, -, -⟩ := c2_concurrency_classification GalCli.plainEnv
    [GalCli.roCallA, GalCli.roCallB] rfl
  refine ⟨?_, hiff2.mpr (by decide), hdown "boom"⟩
  cases hb : GalCli.parallelMode GalCli.plainEnv
      (GalCli.findInteractiveIdx GalCli.plainEnv
        [GalCli.roCallA, GalCli.roCallB, GalCli.mutCallC])
      [GalCli.roCallA, GalCli.roCallB, GalCli.mutCallC] with
  | false => rfl
  | true => exact absurd (hiff3.mp hb) (by decide)

namespace GalCli

theorem roundTools_next_msgs {env : Env} {snap : List Message}
    {st st2 : EngState} {spec : RoundSpec} {calls : List ToolCall}
    (h : roundTools env snap st spec calls = .next st2) :
    ∃ results : List String, results.length = calls.length ∧
      st2.msgs = st.msgs ++ (calls.zip results).map (fun p =>
        ({ role := "tool", content := p.2, toolCalls := [],
           toolCallId := p.1.id } : Message)) := by
  unfold roundTools at h
  by_cases hreq : requestsAt env calls (findInteractiveIdx env calls) ≠ []
      ∧ env.hasHandler = true
  · rw [if_pos hreq] at h
    cases hi : spec.interact with
    | error u =>
      rw [hi] at h
      cases h
    | ok vals =>
      rw [hi] at h
      injection h with h2
      subst h2
      exact ⟨_, roundResults_length _ _ _ _ _, execPhase_msgs _ _ _ _ _ _ _⟩
  · rw [if_neg hreq] at h
    injection h with h2
    subst h2
    exact ⟨_, roundResults_length _ _ _ _ _, execPhase_msgs _ _ _ _ _ _ _⟩

end GalCli

/-- C3: whenever a round with tool calls completes (the loop continues with
next), the transcript gains the assistant tool-call message followed by
exactly one tool message per call, and the i-th appended tool message
carries the ToolCallID of the i-th tool call as originally emitted by the
model; moreover the parallel fan-in keys completions by call index, so every
completion order that is a permutation of the call indices produces the same
results list as computing them in index order. -/
theorem c3_tool_results_in_emission_order
    (env : GalCli.Env) (snap : List GalCli.Message) (st st2 : GalCli.EngState)
    (spec : GalCli.RoundSpec) (content : String) (calls : List GalCli.ToolCall)
    (hc : spec.cancelled = false) (hs : spec.stream = some (content, calls))
    (hne : calls ≠ [])
    (hstep : GalCli.roundStep env snap st spec = .next st2) :
    (∃ tms : List GalCli.Message,
      st2.msgs = st.msgs ++ GalCli.assistantCallsMsg calls :: tms
      ∧ tms.length = calls.length
      ∧ ∀ i (h1 : i < tms.length) (h2 : i < calls.length),
          (tms.get ⟨i, h1⟩).role = "tool"
          ∧ (tms.get ⟨i, h1⟩).toolCallId = (calls.get ⟨i, h2⟩).id)
    ∧ (∀ arrival : List Nat, arrival.Perm (List.range calls.length) →
        GalCli.fillResults calls.length
            (fun i => GalCli.execText (spec.exec i)) arrival
          = (List.range calls.length).map fun i =>
              GalCli.execText (spec.exec i)) := by
  constructor
  · rw [GalCli.roundStep_to_roundTools hc hs hne] at hstep
    obtain ⟨results, hlen, hmsgs⟩ := GalCli.roundTools_next_msgs hstep
    refine ⟨(calls.zip results).map (fun p =>
      ({ role := "tool", content := p.2, toolCalls := [],
         toolCallId := p.1.id } : GalCli.Message)), ?_, ?_, ?_⟩
    · rw [hmsgs]
      simp [GalCli.appendMsg, GalCli.withReqLog]
    · simp [List.length_zip, hlen]
    · intro i h1 h2
      have hzi : i < (calls.zip results).length := by
        simpa using h1
      constructor
      · simp
      · simp [List.getElem_zip]
  · intro arrival hp
    exact GalCli.fillResults_of_perm _ hp

namespace GalCli

/-- Round fixture for the C3 witness: three calls, the middle execution
failing. -/
def callsC3 : List ToolCall := [roCallA, roCallB, mutCallC]

def specC3 : RoundSpec :=
  { stream := some ("", [roCallA, roCallB, mutCallC]),
    exec := fun i => if i = 1 then .error "boom" else .ok "res" }

def stC3 : EngState := { msgs := [sysMsg], sv := [], log := [] }

end GalCli

/-- C3 witness: the theorem applied to a concrete serial round of three
calls (one of them failing), whose step result is computed by rfl. -/
theorem c3_tool_results_in_emission_order_witness :
    (∃ tms : List GalCli.Message,
      (GalCli.execPhase GalCli.plainEnv
        (GalCli.appendMsg (GalCli.withReqLog GalCli.plainEnv GalCli.stC3)
          (GalCli.assistantCallsMsg GalCli.callsC3))
        GalCli.specC3 GalCli.callsC3 none none []).msgs
        = GalCli.stC3.msgs ++ GalCli.assistantCallsMsg GalCli.callsC3 :: tms
      ∧ tms.length = GalCli.callsC3.length
      ∧ ∀ i (h1 : i < tms.length) (h2 : i < GalCli.callsC3.length),
          (tms.get ⟨i, h1⟩).role = "tool"
          ∧ (tms.get ⟨i, h1⟩).toolCallId = (GalCli.callsC3.get ⟨i, h2⟩).id)
    ∧ (∀ arrival : List Nat, arrival.Perm (List.range GalCli.callsC3.length) →
        GalCli.fillResults GalCli.callsC3.length
            (fun i => GalCli.execText (GalCli.specC3.exec i)) arrival
          = (List.range GalCli.callsC3.length).map fun i =>
              GalCli.execText (GalCli.specC3.exec i)) :=
  c3_tool_results_in_emission_order GalCli.plainEnv [] GalCli.stC3
    (GalCli.execPhase GalCli.plainEnv
      (GalCli.appendMsg (GalCli.withReqLog GalCli.plainEnv GalCli.stC3)
        (GalCli.assistantCallsMsg GalCli.callsC3))
      GalCli.specC3 GalCli.callsC3 none none [])
    GalCli.specC3 "" GalCli.callsC3 rfl rfl (by decide) rfl

namespace GalCli

/-- Interactive field request fixture: a sensitive password field. -/
def pwField : InteractiveInputRequest :=
  { name := "password", interactiveType := "blank",
    interactiveHint := "Password", options := [], sensitive := true }

/-- Argument string of the interactive call fixture (the fields array the
model emits). -/
def pwArgs : String :=
  "\x7b\"fields\":[\x7b\"name\":\"password\",\"type\":\"interactive_input\"," ++
  "\"interactive_type\":\"blank\",\"interactive_hint\":\"Password\"," ++
  "\"sensitive\":true\x7d]\x7d"

/-- Interactive tool call fixture. -/
def interactiveCall : ToolCall :=
  { id := "i1", type := "function", name := "interactive", arguments := pwArgs }

/-- Second-round bash call whose arguments echo the collected secret. -/
def leakCall : ToolCall :=
  { id := "c2", type := "function", name := "bash",
    arguments := "\x7b\"command\":\"echo hunter2 | sudo -S ls\"\x7d" }

/-- Environment fixture with an interactive handler: fieldsOf decodes the
fixture argument string, marshalResults renders the collected map as a JSON
object, maskInteractive yields the per-key masked display copy. -/
def interEnv : Env :=
  { readOnly := builtinReadOnly, hasHandler := true,
    fieldsOf := fun s => if s = pwArgs then some [pwField] else none,
    renderRequest := fun msgs => String.intercalate "|" (msgs.map fun m =>
      m.content ++ String.intercalate "," (m.toolCalls.map (·.arguments))),
    marshalResults := fun vals => "\x7b" ++ String.intercalate ","
      (vals.map fun p => "\"" ++ p.1 ++ "\":\"" ++ p.2 ++ "\"") ++ "\x7d",
    maskInteractive := fun _ => "\x7b\"password\":\"********\"\x7d" }

/-- Rounds fixture: interactive collection of the password, then a bash
round whose arguments contain the collected value, then a text round. -/
def specs8 : Nat → RoundSpec := fun r =>
  if r = 0 then
    { stream := some ("", [interactiveCall]),
      interact := .ok [("password", "hunter2")] }
  else if r = 1 then
    { stream := some ("", [leakCall]), exec := fun _ => .ok "done" }
  else { stream := some ("ok", []) }

/-- The concrete three-round turn used for the sensitive-value claims. -/
def run8 : EngState × Except TurnError Unit :=
  sendTurn interEnv [] [sysMsg] "log me in" specs8

end GalCli

/-- C8 (amended): after a value flagged sensitive is collected through
interactive input it is recorded in the process-local mask list (and stays
there for the rest of the turn); every debugJSON (request-dump) emission is
passed through ReplaceAll for each recorded value, so subsequent request
dumps contain the mask and not the raw value, while the transcript itself
retains the raw value.  Plain debugLog emissions (TOOL_CALL lines and the
like) are NOT redacted — masking covers only the debugJSON path. -/
theorem c8_sensitive_masking_scope :
    GalCli.run8.1.sv = ["hunter2"]
    ∧ GalCli.run8.2 = .ok ()
    ∧ (GalCli.run8.1.log.all fun e =>
        match e with
        | .json s => !GalCli.containsStr s "hunter2"
        | .line _ => true) = true
    ∧ (GalCli.run8.1.log.any fun e =>
        match e with
        | .json s => GalCli.containsStr s "********"
        | .line _ => false) = true
    ∧ (GalCli.run8.1.msgs.any fun m =>
        GalCli.containsStr m.content "hunter2") = true
    ∧ (∀ (sv : List String) (s : String),
        GalCli.applyMask (sv ++ ["hunter2"]) s
          = GalCli.replaceAll (GalCli.applyMask sv s) "hunter2" GalCli.maskText) := by
  refine ⟨rfl, rfl, rfl, rfl, rfl, ?_⟩
  intro sv s
  simp [GalCli.applyMask, List.foldl_append]

/-- C8 counterexample: the claim as stated requires every subsequent
debug/log emission to have the collected sensitive substring redacted.  In
the concrete run the value hunter2 is collected (and recorded in the mask
list) in the first round, yet the second-round TOOL_CALL line — emitted via
debugLog, which applies no masking — appears in the log containing hunter2
verbatim. -/
theorem c8_counterexample_debuglog_unmasked :
    GalCli.run8.1.sv = ["hunter2"]
    ∧ GalCli.LogEntry.line ("TOOL_CALL: bash args=" ++ GalCli.leakCall.arguments)
        ∈ GalCli.run8.1.log
    ∧ GalCli.containsStr ("TOOL_CALL: bash args=" ++ GalCli.leakCall.arguments)
        "hunter2" = true := by
  refine ⟨rfl, by decide, rfl⟩

namespace GalCli

/-! ## Context compression (engine.go estimateTokens, NeedsCompression,
Compress) -/

/-- Byte length of a string (Go len on a string). -/
def byteLen (s : String) : Nat := s.utf8ByteSize

/-- int(float64(n) / 2.5) as computed in engine.go, in exact form 2n/5
truncated.  For every n below 2^51 the Go float64 computation agrees with
this value: 2.5 is exactly representable, the division is correctly
rounded, and the quotient is never within half an ulp of crossing an
integer. -/
def tokDiv (n : Nat) : Nat := 2 * n / 5

/-- Per-message token estimate of the Compress boundary walk (engine.go):
the content length and each tool call name plus argument length, divided by
2.5 and truncated separately. -/
def msgTokens (m : Message) : Nat :=
  tokDiv (byteLen m.content)
    + (m.toolCalls.map fun tc => tokDiv (byteLen tc.name + byteLen tc.arguments)).sum

/-- estimateTokens (engine.go): one truncated division over the total
length of contents, call names and call arguments. -/
def estimateTokens (msgs : List Message) : Nat :=
  tokDiv ((msgs.map fun m => byteLen m.content
    + (m.toolCalls.map fun tc => byteLen tc.name + byteLen tc.arguments).sum).sum)

/-- NeedsCompression (engine.go): a nonpositive limit disables compression,
otherwise the estimate must exceed the limit. -/
def needsCompression (limit : Nat) (msgs : List Message) : Bool :=
  decide (0 < limit) && decide (limit < estimateTokens msgs)

/-- Assistant message opening a tool-call group. -/
def isCallGroupHead (m : Message) : Bool :=
  m.role == "assistant" && !m.toolCalls.isEmpty

/-- Tool-result message. -/
def isToolMsg (m : Message) : Bool := m.role == "tool"

/-- Compress boundary walk (engine.go): accumulate per-message estimates
from the oldest message after the system prompt and stop before the message
that would push the total over the target; after taking an assistant
tool-call message, always also take the whole run of immediately following
tool results, with no budget check, adding their content estimates.
Returns (compress zone, keep zone).  The fuel argument is only a structural
termination device: every step consumes at least one message, so fuel equal
to the input length realizes the Go loop. -/
def cutZoneFuel (target : Nat) :
    Nat → List Message → Nat → List Message × List Message
  | 0, l, _ => ([], l)
  | _ + 1, [], _ => ([], [])
  | fuel + 1, m :: rest, accum =>
    if target < accum + msgTokens m then ([], m :: rest)
    else if isCallGroupHead m then
      let ts := rest.takeWhile isToolMsg
      let rest2 := rest.dropWhile isToolMsg
      let r := cutZoneFuel target fuel rest2
        (accum + msgTokens m + (ts.map fun t => tokDiv (byteLen t.content)).sum)
      (m :: (ts ++ r.1), r.2)
    else
      let r := cutZoneFuel target fuel rest (accum + msgTokens m)
      (m :: r.1, r.2)

/-- Boundary walk over the transcript tail. -/
def cutZone (target : Nat) (l : List Message) : List Message × List Message :=
  cutZoneFuel target l.length l 0

/-- Synthetic system message wrapping the summary (engine.go Compress
rebuild). -/
def summaryMsg (summary : String) : Message :=
  { role := "system",
    content := "[Compressed context from earlier conversation]\n" ++ summary,
    toolCalls := [], toolCallId := "" }

/-- Compress (engine.go), given the summary text produced by the isolated
summarization call: a no-op when compression is not needed or when nothing
fits under 80 percent of the limit (cutIdx zero); otherwise the transcript
becomes the original leading system message, the synthetic summary system
message, and the unchanged keep zone.  int(float64(limit)*0.8) is written
in the exact form 4*limit/5, which agrees with the Go float computation for
every limit below 2^50.  (A failing summarization call leaves the
transcript untouched and is not modelled here.) -/
def compressRebuild (limit : Nat) (summary : String)
    (msgs : List Message) : List Message :=
  if !needsCompression limit msgs then msgs
  else
    let zk := cutZone (4 * limit / 5) (msgs.drop 1)
    if zk.1.isEmpty then msgs
    else msgs.take 1 ++ summaryMsg summary :: zk.2

/-- Transcripts grouped into blocks: empty, a non-tool message that opens no
tool-call group, or an assistant tool-call message followed by its maximal
run of tool results.  Every transcript the engine builds has this shape
after the leading system message. -/
inductive Blocked : List Message → Prop
  | nil : Blocked []
  | plain {m : Message} {rest : List Message} :
      isToolMsg m = false → isCallGroupHead m = false →
      Blocked rest → Blocked (m :: rest)
  | group {a : Message} {ts rest : List Message} :
      isCallGroupHead a = true → (∀ t ∈ ts, isToolMsg t = true) →
      (∀ m, rest.head? = some m → isToolMsg m = false) →
      Blocked rest → Blocked (a :: (ts ++ rest))

/-- Element of a list at an index, with an out-of-range default whose role
is neither tool nor assistant. -/
def msgAt (l : List Message) (i : Nat) : Message :=
  l.getD i { role := "", content := "", toolCalls := [], toolCallId := "" }

/-- No dangling tool results: every tool message sits in a run of tool
messages immediately preceded by an assistant message carrying tool calls
(the group it answers). -/
def noDangling (l : List Message) : Prop :=
  ∀ i, i < l.length → isToolMsg (msgAt l i) = true →
    ∃ j, j < i ∧ isCallGroupHead (msgAt l j) = true
      ∧ ∀ k, j < k → k ≤ i → isToolMsg (msgAt l k) = true

theorem groupHead_not_tool {m : Message} (h : isCallGroupHead m = true) :
    isToolMsg m = false := by
  unfold isCallGroupHead at h
  unfold isToolMsg
  rw [Bool.and_eq_true] at h
  obtain ⟨h1, -⟩ := h
  rw [beq_iff_eq] at h1
  simp [h1]

theorem takeWhile_app {p : Message → Bool} {ts rest : List Message}
    (h1 : ∀ t ∈ ts, p t = true)
    (h2 : ∀ m, rest.head? = some m → p m = false) :
    (ts ++ rest).takeWhile p = ts ∧ (ts ++ rest).dropWhile p = rest := by
  induction ts with
  | nil =>
    cases rest with
    | nil => exact ⟨rfl, rfl⟩
    | cons m rest2 =>
      have := h2 m rfl
      simp [List.takeWhile, List.dropWhile, this]
  | cons t ts ih =>
    have ht := h1 t (List.mem_cons_self _ _)
    have ihr := ih (fun x hx => h1 x (List.mem_cons_of_mem _ hx))
    simp [List.takeWhile, List.dropWhile, ht, ihr.1, ihr.2]

end GalCli

namespace GalCli

theorem cutZoneFuel_append (target : Nat) :
    ∀ (fuel : Nat) (l : List Message) (accum : Nat),
      (cutZoneFuel target fuel l accum).1 ++ (cutZoneFuel target fuel l accum).2
        = l := by
  intro fuel
  induction fuel with
  | zero => intro l accum; rfl
  | succ f ih =>
    intro l accum
    cases l with
    | nil => rfl
    | cons m rest =>
      unfold cutZoneFuel
      by_cases hb : target < accum + msgTokens m
      · rw [if_pos hb]
        rfl
      · rw [if_neg hb]
        by_cases hg : isCallGroupHead m = true
        · rw [if_pos hg]
          dsimp only
          rw [List.cons_append, List.append_assoc, ih]
          rw [List.takeWhile_append_dropWhile]
        · rw [if_neg hg]
          dsimp only
          rw [List.cons_append, ih]

theorem blocked_cutZoneFuel (target : Nat) {l : List Message}
    (hb : Blocked l) :
    ∀ (fuel accum : Nat), l.length ≤ fuel →
      Blocked (cutZoneFuel target fuel l accum).2 := by
  induction hb with
  | nil =>
    intro fuel accum _
    cases fuel with
    | zero => exact Blocked.nil
    | succ f => exact Blocked.nil
  | @plain m rest hm1 hm2 hrest ih =>
    intro fuel accum hlen
    cases fuel with
    | zero => exact absurd hlen (by simp)
    | succ f =>
      unfold cutZoneFuel
      by_cases hbd : target < accum + msgTokens m
      · rw [if_pos hbd]
        exact Blocked.plain hm1 hm2 hrest
      · rw [if_neg hbd, if_neg (by simp [hm2])]
        dsimp only
        exact ih f _ (by simpa using Nat.le_of_succ_le_succ hlen)
  | @group a ts rest hhead hts hmax hrest ih =>
    intro fuel accum hlen
    cases fuel with
    | zero => exact absurd hlen (by simp)
    | succ f =>
      unfold cutZoneFuel
      by_cases hbd : target < accum + msgTokens a
      · rw [if_pos hbd]
        exact Blocked.group hhead hts hmax hrest
      · rw [if_neg hbd, if_pos hhead]
        dsimp only
        obtain ⟨htw, hdw⟩ := takeWhile_app hts hmax
        rw [hdw]
        apply ih f
        have hlen2 : ts.length + rest.length + 1 ≤ f + 1 := by
          simpa [List.length_append, Nat.add_comm, Nat.add_assoc,
            Nat.add_left_comm] using hlen
        omega

theorem msgAt_cons_zero (m : Message) (rest : List Message) :
    msgAt (m :: rest) 0 = m := rfl

theorem msgAt_cons_succ (m : Message) (rest : List Message) (i : Nat) :
    msgAt (m :: rest) (i + 1) = msgAt rest i := rfl

theorem msgAt_append_left {ts rest : List Message} {i : Nat}
    (h : i < ts.length) : msgAt (ts ++ rest) i = msgAt ts i := by
  unfold msgAt
  rw [List.getD_append _ _ _ _ h]

theorem msgAt_append_right {ts rest : List Message} {i : Nat}
    (h : ts.length ≤ i) :
    msgAt (ts ++ rest) i = msgAt rest (i - ts.length) := by
  unfold msgAt
  rw [List.getD_append_right _ _ _ _ h]

theorem msgAt_mem {l : List Message} {i : Nat} (h : i < l.length) :
    msgAt l i ∈ l := by
  unfold msgAt
  rw [List.getD_eq_getElem l _ h]
  exact List.getElem_mem h

theorem blocked_noDangling {l : List Message} (hb : Blocked l) :
    noDangling l := by
  induction hb with
  | nil =>
    intro i hi
    exact absurd hi (by simp)
  | @plain m rest hm1 hm2 hrest ih =>
    intro i hi htool
    cases i with
    | zero =>
      rw [msgAt_cons_zero, hm1] at htool
      cases htool
    | succ i2 =>
      rw [msgAt_cons_succ] at htool
      obtain ⟨j, hj, hjh, hbet⟩ :=
        ih i2 (by simpa using Nat.lt_of_succ_lt_succ hi) htool
      refine ⟨j + 1, Nat.succ_lt_succ hj, by rwa [msgAt_cons_succ], ?_⟩
      intro k hk1 hk2
      cases k with
      | zero => omega
      | succ k2 =>
        rw [msgAt_cons_succ]
        exact hbet k2 (Nat.lt_of_succ_lt_succ hk1) (Nat.le_of_succ_le_succ hk2)
  | @group a ts rest hhead hts hmax hrest ih =>
    intro i hi htool
    cases i with
    | zero =>
      rw [msgAt_cons_zero, groupHead_not_tool hhead] at htool
      cases htool
    | succ i2 =>
      rw [msgAt_cons_succ] at htool
      have hi2 : i2 < ts.length + rest.length := by
        have := Nat.lt_of_succ_lt_succ hi
        simpa [List.length_append] using this
      by_cases hits : i2 < ts.length
      · refine ⟨0, Nat.succ_pos _, by rw [msgAt_cons_zero]; exact hhead, ?_⟩
        intro k hk1 hk2
        cases k with
        | zero => omega
        | succ k2 =>
          rw [msgAt_cons_succ]
          have hk2t : k2 < ts.length := by omega
          rw [msgAt_append_left hk2t]
          exact hts _ (msgAt_mem hk2t)
      · have hits2 : ts.length ≤ i2 := Nat.le_of_not_lt hits
        rw [msgAt_append_right hits2] at htool
        have hrlt : i2 - ts.length < rest.length := by omega
        obtain ⟨j, hj, hjh, hbet⟩ := ih (i2 - ts.length) hrlt htool
        refine ⟨ts.length + j + 1, by omega, ?_, ?_⟩
        · rw [msgAt_cons_succ, msgAt_append_right (by omega)]
          have hcan : ts.length + j - ts.length = j := by omega
          rw [hcan]
          exact hjh
        · intro k hk1 hk2
          cases k with
          | zero => omega
          | succ k2 =>
            rw [msgAt_cons_succ]
            have hk2ge : ts.length ≤ k2 := by omega
            rw [msgAt_append_right hk2ge]
            exact hbet (k2 - ts.length) (by omega) (by omega)

end GalCli

/-- C7: for every transcript whose tail (after the leading system message)
is well formed — each tool-result run immediately follows its assistant
tool-call message — the compression boundary never separates an assistant
tool-call message from its following tool results: the zone and keep parts
re-assemble to the tail, the keep zone is itself well formed (so the cut is
never inside a group: the budget walk extends across the whole run), the
rebuilt transcript is either untouched or exactly the original system
message, one synthetic summary system message, and the unchanged keep zone,
and in the rebuilt transcript no tool message exists without a preceding
assistant tool-call message heading its run. -/
theorem c7_compression_boundary_preserves_groups
    (limit : Nat) (summary : String) (sys : GalCli.Message)
    (tail : List GalCli.Message)
    (hs1 : GalCli.isToolMsg sys = false)
    (hs2 : GalCli.isCallGroupHead sys = false)
    (hb : GalCli.Blocked tail) :
    ((GalCli.cutZone (4 * limit / 5) tail).1
        ++ (GalCli.cutZone (4 * limit / 5) tail).2 = tail)
    ∧ GalCli.Blocked (GalCli.cutZone (4 * limit / 5) tail).2
    ∧ (GalCli.compressRebuild limit summary (sys :: tail) = sys :: tail
       ∨ GalCli.compressRebuild limit summary (sys :: tail)
         = sys :: GalCli.summaryMsg summary
             :: (GalCli.cutZone (4 * limit / 5) tail).2)
    ∧ GalCli.noDangling (GalCli.compressRebuild limit summary (sys :: tail)) := by
  have happ := GalCli.cutZoneFuel_append (4 * limit / 5) tail.length tail 0
  have hkeep : GalCli.Blocked (GalCli.cutZone (4 * limit / 5) tail).2 :=
    GalCli.blocked_cutZoneFuel _ hb _ 0 le_rfl
  have hdisj : GalCli.compressRebuild limit summary (sys :: tail) = sys :: tail
      ∨ GalCli.compressRebuild limit summary (sys :: tail)
        = sys :: GalCli.summaryMsg summary
            :: (GalCli.cutZone (4 * limit / 5) tail).2 := by
    unfold GalCli.compressRebuild
    by_cases hn : GalCli.needsCompression limit (sys :: tail) = true
    · by_cases hz : (GalCli.cutZone (4 * limit / 5) tail).1.isEmpty = true
      · left
        simp [hn, hz]
      · right
        simp [hn, hz]
    · left
      simp [hn]
  refine ⟨happ, hkeep, hdisj, ?_⟩
  rcases hdisj with h | h
  · rw [h]
    exact GalCli.blocked_noDangling (GalCli.Blocked.plain hs1 hs2 hb)
  · rw [h]
    exact GalCli.blocked_noDangling (GalCli.Blocked.plain hs1 hs2
      (GalCli.Blocked.plain rfl rfl hkeep))

namespace GalCli

/-- Fifty-character content fixture. -/
def longText : String := "qqqqqqqqqqqqqqqqqqqqqqqqqqqqqqqqqqqqqqqqqqqqqqqqqq"

/-- Tool result of the C7 fixture group. -/
def toolRes7 : Message :=
  { role := "tool", content := longText, toolCalls := [], toolCallId := "call_1" }

/-- Tail fixture: user, assistant tool-call group with one result, user. -/
def tail7 : List Message :=
  [userMsgOf longText, assistantCallsMsg [bashCall], toolRes7,
   userMsgOf "tail-question"]

/-- Full transcript fixture for compression. -/
def msgs7 : List Message := sysMsg :: tail7

theorem blocked_tail7 : Blocked tail7 := by
  refine Blocked.plain rfl rfl
    (@Blocked.group (assistantCallsMsg [bashCall]) [toolRes7]
      [userMsgOf "tail-question"] rfl ?_ ?_
      (Blocked.plain rfl rfl Blocked.nil))
  · intro t ht
    rw [List.mem_singleton] at ht
    subst ht
    rfl
  · intro m hm
    cases hm
    rfl

end GalCli

/-- C7 witness: on the concrete transcript the token cut would fall between
the assistant tool-call message and its tool result (the budget is exceeded
while the result is consumed), yet the whole group lands in the compress
zone and the rebuilt transcript is the original system message, the
synthetic summary message, and the untouched keep zone, with no dangling
tool message. -/
theorem c7_compression_boundary_preserves_groups_witness :
    GalCli.compressRebuild 40 "SUM" GalCli.msgs7
      = [GalCli.sysMsg, GalCli.summaryMsg "SUM", GalCli.userMsgOf "tail-question"]
    ∧ GalCli.noDangling (GalCli.compressRebuild 40 "SUM" GalCli.msgs7) := by
  refine ⟨rfl, ?_⟩
  exact (c7_compression_boundary_preserves_groups 40 "SUM" GalCli.sysMsg
    GalCli.tail7 rfl rfl GalCli.blocked_tail7).2.2.2
